import Mathlib

/-!
Verification development for the browsercookie repository
(src/browsercookie/__init__.py).

Shallow embedding conventions:
- Python byte strings are `List Nat` (each element a byte value).
- Decoded text strings are `String` where the code has already decoded them
  (host/path/name of a Chromium row), and `List Nat` where the value is
  produced by byte-level work (decrypted cookie values, Safari fields);
  a decoded string is represented by its UTF-8 byte sequence together with
  a validity check mirroring Python's `bytes.decode("utf-8")`.
- Fallible code returns `Option`/`Except`; a raised Python exception is the
  `none`/`.error` case.
- The AES block cipher itself is a library primitive in the source
  (`cryptography.hazmat`), so it is abstracted as a pair of functions on
  16-byte blocks; the CBC mode, PKCS#7 padding and all marker/prefix
  handling are embedded from the source.
-/

namespace Browsercookie

/-! ### Byte-buffer primitives

`readBytes buf pos n` models `buf.seek(pos); unpack(fmt, buf.read(n))` on a
Python `BytesIO`: `read` returns at most the remaining bytes and `unpack`
raises `struct.error` unless it receives exactly `n` bytes, so the combined
operation succeeds exactly when `pos + n ≤ buf.length`. -/

def readBytes (buf : List Nat) (pos n : Nat) : Option (List Nat) :=
  if pos + n ≤ buf.length then some ((buf.drop pos).take n) else none

/-- `pyRead buf pos n` models `buf.seek(pos); buf.read(n)` where the result is
used as a plain byte string (no unpack): a negative size reads to the end of
the buffer, otherwise at most `n` bytes are returned. -/
def pyRead (buf : List Nat) (pos : Nat) (n : Int) : List Nat :=
  if n < 0 then buf.drop pos else (buf.drop pos).take n.toNat

/-- Little-endian unsigned 32-bit value of (the first four bytes of) a byte
list, as produced by `unpack` before sign interpretation. -/
def leU32 (b : List Nat) : Nat :=
  b.getD 0 0 + 256 * b.getD 1 0 + 65536 * b.getD 2 0 + 16777216 * b.getD 3 0

/-- Big-endian unsigned 32-bit value of (the first four bytes of) a byte
list. -/
def beU32 (b : List Nat) : Nat :=
  b.getD 3 0 + 256 * b.getD 2 0 + 65536 * b.getD 1 0 + 16777216 * b.getD 0 0

/-- Two's-complement reinterpretation of an unsigned 32-bit value, as done by
the signed format codes of `struct.unpack`. -/
def toSigned32 (n : Nat) : Int :=
  if n < 2147483648 then (n : Int) else (n : Int) - 4294967296

/-- `unpack("<i", ...)`: signed little-endian 32-bit integer. -/
def sle32 (b : List Nat) : Int := toSigned32 (leU32 b)

/-- `unpack(">i", ...)`: signed big-endian 32-bit integer. -/
def sbe32 (b : List Nat) : Int := toSigned32 (beU32 b)

/-! ### Chromium cipher engine (`ChromeBased._decrypt`, macOS/Linux path)

From src/browsercookie/__init__.py lines 188-232.  The AES block operation is
a library primitive; everything else (marker test, marker strip, CBC chaining
with the all-space IV, PKCS#7 unpadding, the schema-version-24 32-byte strip
and the final UTF-8 decode) is embedded below. -/

/-- The byte string `b"v10"`. -/
def v10b : List Nat := [118, 49, 48]

/-- The byte string `b"v11"`. -/
def v11b : List Nat := [118, 49, 49]

/-- The fixed all-space 16-byte IV: `b" " * (aes.block_size // 8)`. -/
def iv16 : List Nat := List.replicate 16 32

/-- Bytewise XOR of two byte strings (truncating to the shorter). -/
def xorBytes (a b : List Nat) : List Nat := List.zipWith Nat.xor a b

/-- Split a byte string into chunks of `n` bytes, fuel-recursive so that it
reduces in the kernel.  With `fuel ≥ l.length` and `n ≥ 1` this is ordinary
chunking; the last chunk may be shorter than `n`. -/
def chunkFuel (n : Nat) : Nat → List Nat → List (List Nat)
  | 0, _ => []
  | _, [] => []
  | fuel + 1, l => l.take n :: chunkFuel n fuel (l.drop n)

/-- Split a byte string into 16-byte blocks (AES block size). -/
def chunk16 (l : List Nat) : List (List Nat) := chunkFuel 16 l.length l

/-- CBC encryption over a block list: each block is XORed with the previous
ciphertext block (initially the IV) before the block cipher `E` is applied. -/
def cbcEncBlocks (E : List Nat → List Nat) (iv : List Nat) :
    List (List Nat) → List (List Nat)
  | [] => []
  | b :: bs => E (xorBytes iv b) :: cbcEncBlocks E (E (xorBytes iv b)) bs

/-- CBC decryption over a block list: the block cipher inverse `D` is applied
and the result XORed with the previous ciphertext block (initially the IV). -/
def cbcDecBlocks (D : List Nat → List Nat) (iv : List Nat) :
    List (List Nat) → List (List Nat)
  | [] => []
  | c :: cs => xorBytes iv (D c) :: cbcDecBlocks D c cs

/-- PKCS#7 padding to the 16-byte AES block size: append `n = 16 - len % 16`
bytes, each of value `n`. -/
def pkcs7Pad (l : List Nat) : List Nat :=
  l ++ List.replicate (16 - l.length % 16) (16 - l.length % 16)

/-- PKCS#7 unpadding as performed by `padding.PKCS7(128).unpadder()`: the
input must be a non-empty multiple of 16 bytes whose last byte `n` satisfies
`1 ≤ n ≤ 16` and whose last `n` bytes all equal `n`; otherwise `ValueError`
(`none`). -/
def pkcs7Unpad (l : List Nat) : Option (List Nat) :=
  match l.getLast? with
  | none => none
  | some n =>
    if 1 ≤ n ∧ n ≤ 16 ∧ n ≤ l.length ∧ l.length % 16 = 0 ∧
        (l.drop (l.length - n)).all (· = n) then
      some (l.take (l.length - n))
    else none

/-- Is this byte a UTF-8 continuation byte (`0x80..0xBF`)? -/
def isCont (b : Nat) : Bool := 128 ≤ b && b ≤ 191

/-- UTF-8 validity of a byte string, mirroring the acceptance of Python's
`bytes.decode("utf-8")` (rejecting overlong encodings, surrogates and
code points above U+10FFFF). -/
def utf8Valid : List Nat → Bool
  | [] => true
  | b :: rest =>
    if b ≤ 127 then utf8Valid rest
    else if 194 ≤ b && b ≤ 223 then
      match rest with
      | b1 :: rest2 => isCont b1 && utf8Valid rest2
      | [] => false
    else if b = 224 then
      match rest with
      | b1 :: b2 :: rest2 => (160 ≤ b1 && b1 ≤ 191) && isCont b2 && utf8Valid rest2
      | _ => false
    else if 225 ≤ b && b ≤ 236 then
      match rest with
      | b1 :: b2 :: rest2 => isCont b1 && isCont b2 && utf8Valid rest2
      | _ => false
    else if b = 237 then
      match rest with
      | b1 :: b2 :: rest2 => (128 ≤ b1 && b1 ≤ 159) && isCont b2 && utf8Valid rest2
      | _ => false
    else if 238 ≤ b && b ≤ 239 then
      match rest with
      | b1 :: b2 :: rest2 => isCont b1 && isCont b2 && utf8Valid rest2
      | _ => false
    else if b = 240 then
      match rest with
      | b1 :: b2 :: b3 :: rest2 =>
        (144 ≤ b1 && b1 ≤ 191) && isCont b2 && isCont b3 && utf8Valid rest2
      | _ => false
    else if 241 ≤ b && b ≤ 243 then
      match rest with
      | b1 :: b2 :: b3 :: rest2 =>
        isCont b1 && isCont b2 && isCont b3 && utf8Valid rest2
      | _ => false
    else if b = 244 then
      match rest with
      | b1 :: b2 :: b3 :: rest2 =>
        (128 ≤ b1 && b1 ≤ 143) && isCont b2 && isCont b3 && utf8Valid rest2
      | _ => false
    else false

/-- `ChromeBased._decrypt` on the macOS/Linux path (lines 192-207 and
229-232), with the keyed AES block decryption abstracted as `D`.

- If the plain `value` column is non-empty, or the encrypted column does not
  start with `b"v10"` or `b"v11"`, the plain column is returned unchanged
  (the early `return value` — note it skips both the version-24 strip and
  the UTF-8 decode).
- Otherwise the 3-byte marker is stripped, the remainder is CBC-decrypted
  with the all-space IV (the library cipher raises `ValueError` on a partial
  final block) and PKCS#7-unpadded; for schema version ≥ 24 the first 32
  bytes of the plaintext are stripped; finally the bytes must decode as
  UTF-8 (`UnicodeDecodeError` otherwise).  The successful result is the
  byte sequence of the decoded string. -/
def chromeDecrypt (D : List Nat → List Nat) (value encval : List Nat)
    (version : Nat) : Option (List Nat) :=
  if value ≠ [] ∨ (encval.take 3 ≠ v10b ∧ encval.take 3 ≠ v11b) then
    some value
  else
    let ct := encval.drop 3
    if ct.length % 16 ≠ 0 then none
    else
      match pkcs7Unpad ((cbcDecBlocks D iv16 (chunk16 ct)).flatten) with
      | none => none
      | some pt =>
        let pt2 := if 24 ≤ version then pt.drop 32 else pt
        if utf8Valid pt2 then some pt2 else none

/-- The encryption scheme the specification documents for the round-trip
property: PKCS#7-pad the plaintext, CBC-encrypt it with block cipher `E`
under the fixed all-space IV, and concatenate the ciphertext blocks.
(The `v10` marker is prepended by the caller.) -/
def aesCbcEncrypt (E : List Nat → List Nat) (pt : List Nat) : List Nat :=
  (cbcEncBlocks E iv16 (chunk16 (pkcs7Pad pt))).flatten

/-! ### Chromium store reader (`ChromeBased.get_cookies`, lines 160-185)

One relational row of the `cookies` table, after the host/path/name columns
have been decoded (`.decode("utf-8")` on lines 172-174). -/

structure ChromeRow where
  host : String
  path : String
  secure : Bool
  /-- `expires_utc`: microseconds since 1601-01-01, an integer column. -/
  expiresUtc : Nat
  name : String
  value : List Nat
  encryptedValue : List Nat
  /-- The schema version read from the `meta` table. -/
  version : Nat
deriving DecidableEq

/-- Line 175: `expires = expires / 1e6 - 11644473600`.  Python `/` is true
division producing a float; it is embedded as exact division in `ℚ`. -/
def chromeExpires (u : Nat) : ℚ := (u : ℚ) / 1000000 - 11644473600

/-- `host.startswith(".")`: the stored host begins with a dot.  (Stated on
the character list so that it evaluates in the kernel.) -/
def startsWithDot (s : String) : Bool := s.data.head? == some '.'

/-- The cookie object built by `create_cookie` (line 566-569) for a Chromium
row: `domain_specified` and `domain_initial_dot` are both
`host.startswith(".")`. -/
structure ChromeCookieRecord where
  name : String
  value : List Nat
  domain : String
  domainSpecified : Bool
  domainInitialDot : Bool
  path : String
  secure : Bool
  expires : ℚ
deriving DecidableEq

/-- `create_cookie(host, path, secure, expires, name, value)` for a Chromium
row (value still a byte sequence in this embedding). -/
def chromeRowCookie (r : ChromeRow) (v : List Nat) : ChromeCookieRecord :=
  { name := r.name
    value := v
    domain := r.host
    domainSpecified := startsWithDot r.host
    domainInitialDot := startsWithDot r.host
    path := r.path
    secure := r.secure
    expires := chromeExpires r.expiresUtc }

/-- The per-row key loop of `ChromeBased.get_cookies` (lines 176-185):
try `dec` on each key in order; on the first success yield exactly one
cookie and stop (`break`); if every key fails (`for`/`else`), raise
`BrowserCookieError` with the message `emsg`. -/
def tryKeysRow {κ : Type} (dec : κ → Option (List Nat))
    (mk : List Nat → ChromeCookieRecord) (emsg : String) :
    List κ → Except String (List ChromeCookieRecord)
  | [] => .error emsg
  | k :: ks =>
    match dec k with
    | some v => .ok [mk v]
    | none => tryKeysRow dec mk emsg ks

/-- Processing of one Chromium row with the candidate key list: each key `k`
is tried via `_decrypt` (embedded as `chromeDecrypt (D k)`, where `D k` is
the AES block decryption under key `k`); the error message of line 185 is
`"Error decrypting cookie " + name + " for " + host`. -/
def chromeProcessRow {κ : Type} (D : κ → List Nat → List Nat)
    (keys : List κ) (r : ChromeRow) : Except String (List ChromeCookieRecord) :=
  tryKeysRow (fun k => chromeDecrypt (D k) r.value r.encryptedValue r.version)
    (chromeRowCookie r)
    ("Error decrypting cookie " ++ r.name ++ " for " ++ r.host)
    keys

/-! ### Safari binary parser (`Safari.get_cookies`, lines 466-562) -/

/-- The flags-to-secure mapping of lines 506-517.  The preliminary
`if flags == 0: cookie_flags = False` statement is always overwritten by the
following `if`/`elif`/`else` chain (whose final `else` also yields `False`
when `flags == 0`), so the net mapping is the chain below. -/
def safariFlagsSecure (flags : Int) : Bool :=
  if flags = 1 then true
  else if flags = 4 then false
  else if flags = 5 then true
  else false

/-- Read a NUL-terminated string starting at the head of a byte list:
stop at the first zero byte; run past the end of the buffer and the
`unpack("<b", b"")` of the loop raises `struct.error` (`none`); a byte
`≥ 0x80` fails the per-byte `u.decode("utf-8")` (`UnicodeDecodeError`,
`none`). -/
def takeUntilZero : List Nat → Option (List Nat)
  | [] => none
  | b :: rest =>
    if b = 0 then some []
    else if b < 128 then (takeUntilZero rest).map (b :: ·)
    else none

/-- Read one of the four string fields of a cookie entry:
`cookie.seek(off - 4)` followed by the byte loop.  A field offset below 4
makes the seek target negative, which raises `ValueError` on a `BytesIO`. -/
def readCString (c : List Nat) (off : Int) : Option (List Nat) :=
  if off < 4 then none
  else takeUntilZero (c.drop (off - 4).toNat)

/-- A decoded Safari cookie entry.  `expires` keeps the
`str(int(unpack("<d", ...)[0] + 978307200))` conversion of line 526 with the
8-byte IEEE-754 decode-and-truncate abstracted as a parameter `f64` with
`f64 bytes = int(unpack("<d", bytes)[0] + 978307200) - 978307200`
(floating point is outside the shallow embedding; no claim depends on the
decoded value, only on the `+ 978307200` offset being applied). -/
structure SafariCookie where
  host : List Nat
  path : List Nat
  secure : Bool
  expires : Int
  name : List Nat
  value : List Nat
deriving DecidableEq

/-- Parse one cookie entry from its byte window `c` (the `cookiesize`-byte
buffer created on line 502, which starts immediately after the 4-byte size
field, so each stored field offset is shifted by `-4`).  Fixed positions:
bytes 0-4 are skipped, flags at 4, another skip at 8, the four field offsets
at 12/16/20/24, the expiry float at 28-36.  Each `unpack` needs its full
byte count, so a too-short entry fails. -/
def parseSafariEntry (f64 : List Nat → Int) (c : List Nat) : Option SafariCookie :=
  match readBytes c 4 4, readBytes c 12 4, readBytes c 16 4,
      readBytes c 20 4, readBytes c 24 4, readBytes c 28 8 with
  | some flagsB, some urlB, some nameB, some pathB, some valueB, some expiryB =>
    match readCString c (sle32 urlB), readCString c (sle32 nameB),
        readCString c (sle32 pathB), readCString c (sle32 valueB) with
    | some host, some name, some path, some value =>
      some { host := host
             path := path
             secure := safariFlagsSecure (sle32 flagsB)
             expires := f64 expiryB + 978307200
             name := name
             value := value }
    | _, _, _, _ => none
  | _, _, _, _, _, _ => none

/-- Lines 499-502: seek to a cookie offset inside the page, read the 4-byte
entry size, then materialize the entry window with `page.read(cookiesize)`
(truncated at the page end; a negative size reads to the end). -/
def parseCookieAt (f64 : List Nat → Int) (page : List Nat) (off : Int) :
    Option SafariCookie :=
  if off < 0 then none
  else
    match readBytes page off.toNat 4 with
    | none => none
    | some sizeB => parseSafariEntry f64 (pyRead page (off.toNat + 4) (sle32 sizeB))

/-- Read `n` consecutive little-endian signed 32-bit integers starting at
`pos` (the cookie-offset table of a page). -/
def readLE32s (buf : List Nat) (pos : Nat) : Nat → Option (List Int)
  | 0 => some []
  | n + 1 =>
    match readBytes buf pos 4, readLE32s buf (pos + 4) n with
    | some b, some rest => some (sle32 b :: rest)
    | _, _ => none

/-- Read `n` consecutive big-endian signed 32-bit integers starting at
`pos` (the page-size table of the file header). -/
def readBE32s (buf : List Nat) (pos : Nat) : Nat → Option (List Int)
  | 0 => some []
  | n + 1 =>
    match readBytes buf pos 4, readBE32s buf (pos + 4) n with
    | some b, some rest => some (sbe32 b :: rest)
    | _, _ => none

/-- Lines 487-560, one page: skip the 4-byte page header, read the
little-endian cookie count at 4, the offset table at 8, then parse the entry
at each offset.  A failure at any entry aborts the page (the generator
raises). -/
def parsePage (f64 : List Nat → Int) (page : List Nat) : Option (List SafariCookie) :=
  match readBytes page 4 4 with
  | none => none
  | some numB =>
    match readLE32s page 8 (sle32 numB).toNat with
    | none => none
    | some offs => offs.mapM (parseCookieAt f64 page)

/-- Lines 479-485: successive `binary_file.read(ps)` calls; each page is the
next `ps` bytes of the file (truncated at EOF), and the file position
advances by the number of bytes actually read. -/
def cutPages (data : List Nat) (pos : Nat) : List Int → List (List Nat)
  | [] => []
  | s :: rest =>
    let pg := pyRead data pos s
    pg :: cutPages data (pos + pg.length) rest

/-- Lines 475-562, the whole `Cookies.binarycookies` container: 4-byte magic
(read but never checked), big-endian page count at 4, page-size table at 8,
then the page blocks; all pages' cookies are emitted as one flat sequence. -/
def parseBinaryCookies (f64 : List Nat → Int) (data : List Nat) :
    Option (List SafariCookie) :=
  match readBytes data 4 4 with
  | none => none
  | some numB =>
    match readBE32s data 8 (sbe32 numB).toNat with
    | none => none
    | some sizes =>
      match (cutPages data (8 + 4 * (sbe32 numB).toNat) sizes).mapM (parsePage f64) with
      | none => none
      | some pagesCookies => some pagesCookies.flatten

/-- The fixed path opened by `Safari.get_cookies` (line 467), before
`expanduser` expansion. -/
def safariCookiesPath : String := "~/Library/Cookies/Cookies.binarycookies"

/-- `Safari.get_cookies` (lines 466-562): the method receives the loader's
`cookie_files` list (set by `BrowserCookieLoader.__init__`, lines 79-81) but
never consults it; it always opens the fixed path and parses that file.  The
file system is abstracted as a partial map from paths to byte contents; a
missing file is the `IOError` branch (the code then calls `exit()`, so no
cookies are produced). -/
def safariGetCookies (f64 : List Nat → Int) (fs : String → Option (List Nat))
    (cookieFiles : List String) : Option (List SafariCookie) :=
  match fs safariCookiesPath with
  | none => none
  | some data => parseBinaryCookies f64 data

/-! ### Firefox store reader (`Firefox`, lines 341-449) -/

/-- The universal cookie object built by `create_cookie` for Firefox rows,
session cookies and the aggregator. -/
structure CookieRecord where
  name : String
  value : String
  domain : String
  domainSpecified : Bool
  domainInitialDot : Bool
  path : String
  secure : Bool
  expires : ℚ
deriving DecidableEq

/-- `create_cookie(host, path, secure, expires, name, value)` (lines
566-569). -/
def createCookie (host path : String) (secure : Bool) (expires : ℚ)
    (name value : String) : CookieRecord :=
  { name := name
    value := value
    domain := host
    domainSpecified := startsWithDot host
    domainInitialDot := startsWithDot host
    path := path
    secure := secure
    expires := expires }

/-- One row of the `moz_cookies` table
(`select host, path, isSecure, expiry, name, value`). -/
structure FirefoxRow where
  host : String
  path : String
  isSecure : Bool
  expiry : Int
  name : String
  value : String
deriving DecidableEq

/-- `create_cookie(*item)` for a `moz_cookies` row (line 421). -/
def firefoxRowCookie (r : FirefoxRow) : CookieRecord :=
  createCookie r.host r.path r.isSecure (r.expiry : ℚ) r.name r.value

/-- One cookie object inside a session-recovery JSON document. -/
structure SessionCookie where
  host : String
  path : String
  name : String
  value : String
deriving DecidableEq

/-- One `windows[]` entry of a session-recovery document. -/
structure SessionWindow where
  cookies : List SessionCookie
deriving DecidableEq

/-- A parsed session-recovery document: its `windows` array plus the
`cookies` array of the top-level object itself (the legacy
single-session-object shape), since line 445 walks
`json_data.get("windows", []) + [json_data]`. -/
structure SessionDoc where
  windows : List SessionWindow
  topCookies : List SessionCookie
deriving DecidableEq

/-- All session cookies of a document in emission order: the windows in
order, then the top-level object's own cookies. -/
def sessionDocCookies (d : SessionDoc) : List SessionCookie :=
  (d.windows.map SessionWindow.cookies).flatten ++ d.topCookies

/-- Line 447: a session cookie is emitted with `secure = False` and the
synthetic expiry `int(time.time()) + 3600 * 24 * 7` computed on line 444. -/
def firefoxSessionCookie (now : Int) (c : SessionCookie) : CookieRecord :=
  createCookie c.host c.path false ((now + 3600 * 24 * 7 : Int) : ℚ) c.name c.value

/-- A file handed to `Firefox.get_cookies`: either the sqlite cookie store
(its `moz_cookies` rows) or a session-recovery file (`some doc` if the JSON
was read and parsed, `none` if reading/parsing failed — the code only prints
and continues in that case). -/
inductive FirefoxFile where
  | sqlite (rows : List FirefoxRow)
  | sessionFile (doc : Option SessionDoc)
deriving DecidableEq

/-- Project the parsed session document out of a file, if any. -/
def sessionDocOf : FirefoxFile → Option SessionDoc
  | .sqlite _ => none
  | .sessionFile d => d

/-- `Firefox.get_cookies`, one file (lines 412-447): sqlite rows each become
a cookie via `create_cookie(*item)`; a parsed session file emits all its
session cookies; a failed session parse emits nothing. -/
def firefoxFileCookies (now : Int) : FirefoxFile → List CookieRecord
  | .sqlite rows => rows.map firefoxRowCookie
  | .sessionFile none => []
  | .sessionFile (some d) => (sessionDocCookies d).map (firefoxSessionCookie now)

/-- `Firefox.get_cookies` over the whole `cookie_files` list, in list
order. -/
def firefoxGetCookies (now : Int) (files : List FirefoxFile) : List CookieRecord :=
  (files.map (firefoxFileCookies now)).flatten

/-- `Firefox.find_cookie_files` (lines 394-406): every existing
session-recovery candidate is yielded first, then the sqlite cookie file is
yielded last. -/
def firefoxOrderFiles (sessionFiles : List FirefoxFile) (sqliteFile : FirefoxFile) :
    List FirefoxFile :=
  sessionFiles ++ [sqliteFile]

/-! ### Aggregator (`_get_cookies` and `load`, lines 618-636) -/

/-- The loader classes defined in the module (each a
`BrowserCookieLoader` subclass with a module-level entry point). -/
inductive Browser where
  | brave | chrome | chromium | vivaldi | edge | edgeDev | firefox | safari
deriving DecidableEq

/-- The class list iterated by `_get_cookies` (line 620):
`[Brave, Chrome, Chromium, Vivaldi, Edge, EdgeDev, Firefox]`. -/
def aggregatorKlasses : List Browser :=
  [.brave, .chrome, .chromium, .vivaldi, .edge, .edgeDev, .firefox]

/-- `_get_cookies` (lines 618-625) over a loader-results map `f`: each
loader's cookies are emitted in order; a loader failing with
`BrowserCookieError` contributes nothing and the iteration continues. -/
def aggGather {ε : Type} (f : Browser → Except ε (List CookieRecord)) :
    List Browser → List CookieRecord
  | [] => []
  | b :: bs =>
    (match f b with
     | .ok l => l
     | .error _ => []) ++ aggGather f bs

/-- Comparison key of `sorted(_get_cookies(), key=lambda cookie: cookie.expires)`. -/
def expiresLe (a b : CookieRecord) : Bool := a.expires ≤ b.expires

/-- `load` (lines 628-636): gather all loaders' cookies and sort them
ascending by `expires` before the jar insertions. -/
def aggLoad {ε : Type} (f : Browser → Except ε (List CookieRecord)) :
    List CookieRecord :=
  (aggGather f aggregatorKlasses).mergeSort expiresLe

/-! ## Lemmas about chunking, CBC and PKCS#7 -/

theorem chunkFuel_congr (f : Nat) : ∀ (g : Nat) (l : List Nat),
    l.length ≤ f → l.length ≤ g → chunkFuel 16 f l = chunkFuel 16 g l := by
  induction f with
  | zero =>
    intro g l hf _
    have : l = [] := List.eq_nil_of_length_eq_zero (Nat.le_zero.mp hf)
    subst this
    cases g <;> rfl
  | succ f ih =>
    intro g l hf hg
    cases l with
    | nil => cases g <;> rfl
    | cons x xs =>
      cases g with
      | zero => simp at hg
      | succ g =>
        show (x :: xs).take 16 :: chunkFuel 16 f ((x :: xs).drop 16) =
          (x :: xs).take 16 :: chunkFuel 16 g ((x :: xs).drop 16)
        have hlen : ((x :: xs).drop 16).length = (x :: xs).length - 16 :=
          List.length_drop 16 (x :: xs)
        rw [ih g ((x :: xs).drop 16) (by simp at hf ⊢; omega) (by simp at hg ⊢; omega)]

theorem flatten_chunkFuel (f : Nat) : ∀ l : List Nat,
    l.length ≤ f → (chunkFuel 16 f l).flatten = l := by
  induction f with
  | zero =>
    intro l hf
    have : l = [] := List.eq_nil_of_length_eq_zero (Nat.le_zero.mp hf)
    subst this
    rfl
  | succ f ih =>
    intro l hf
    cases l with
    | nil => rfl
    | cons x xs =>
      show ((x :: xs).take 16 :: chunkFuel 16 f ((x :: xs).drop 16)).flatten = x :: xs
      rw [List.flatten_cons, ih ((x :: xs).drop 16) (by simp at hf ⊢; omega),
        List.take_append_drop]

theorem flatten_chunk16 (l : List Nat) : (chunk16 l).flatten = l :=
  flatten_chunkFuel l.length l le_rfl

theorem chunk16_append_block (b rest : List Nat) (hb : b.length = 16) :
    chunk16 (b ++ rest) = b :: chunk16 rest := by
  cases b with
  | nil => simp at hb
  | cons x xs =>
    show ((x :: xs) ++ rest).take 16 ::
        chunkFuel 16 (xs ++ rest).length (((x :: xs) ++ rest).drop 16) =
      (x :: xs) :: chunk16 rest
    rw [List.take_left' hb, List.drop_left' hb,
      chunkFuel_congr (xs ++ rest).length rest.length rest
        (by rw [List.length_append]; omega) le_rfl]
    rfl

theorem chunk16_flatten_blocks : ∀ bs : List (List Nat),
    (∀ b ∈ bs, b.length = 16) → chunk16 bs.flatten = bs := by
  intro bs
  induction bs with
  | nil => intro _; rfl
  | cons b rest ih =>
    intro h
    rw [List.flatten_cons, chunk16_append_block b rest.flatten (h b (by simp)),
      ih (fun x hx => h x (by simp [hx]))]

theorem chunkFuel_blocks_len (f : Nat) : ∀ l : List Nat, l.length ≤ f →
    l.length % 16 = 0 → ∀ b ∈ chunkFuel 16 f l, b.length = 16 := by
  induction f with
  | zero =>
    intro l hf _
    have : l = [] := List.eq_nil_of_length_eq_zero (Nat.le_zero.mp hf)
    subst this
    intro b hb
    simp [chunkFuel] at hb
  | succ f ih =>
    intro l hf hmod b hb
    cases l with
    | nil => simp [chunkFuel] at hb
    | cons x xs =>
      have hge : 16 ≤ (x :: xs).length := by
        have hne : (x :: xs).length ≠ 0 := by simp
        omega
      have hb2 : b = (x :: xs).take 16 ∨ b ∈ chunkFuel 16 f ((x :: xs).drop 16) :=
        List.mem_cons.mp hb
      rcases hb2 with hb2 | hb2
      · rw [hb2, List.length_take]
        omega
      · exact ih ((x :: xs).drop 16) (by simp at hf ⊢; omega)
          (by rw [List.length_drop]; omega) b hb2

theorem chunk16_blocks_len (l : List Nat) (h : l.length % 16 = 0) :
    ∀ b ∈ chunk16 l, b.length = 16 :=
  chunkFuel_blocks_len l.length l le_rfl h

theorem xorBytes_len16 (a b : List Nat) (ha : a.length = 16) (hb : b.length = 16) :
    (xorBytes a b).length = 16 := by
  simp [xorBytes, ha, hb]

theorem xorBytes_xorBytes : ∀ a b : List Nat, b.length ≤ a.length →
    xorBytes a (xorBytes a b) = b := by
  intro a
  induction a with
  | nil =>
    intro b hb
    cases b with
    | nil => rfl
    | cons y ys => simp at hb
  | cons x xs ih =>
    intro b hb
    cases b with
    | nil => rfl
    | cons y ys =>
      show (x ^^^ (x ^^^ y)) :: xorBytes xs (xorBytes xs ys) = y :: ys
      rw [← Nat.xor_assoc, Nat.xor_self, Nat.zero_xor, ih ys (by simp at hb; omega)]

theorem cbcEncBlocks_blocks_len (E : List Nat → List Nat)
    (hE : ∀ b, b.length = 16 → (E b).length = 16) :
    ∀ (bs : List (List Nat)) (iv : List Nat), iv.length = 16 →
    (∀ b ∈ bs, b.length = 16) → ∀ c ∈ cbcEncBlocks E iv bs, c.length = 16 := by
  intro bs
  induction bs with
  | nil => intro iv _ _ c hc; simp [cbcEncBlocks] at hc
  | cons b rest ih =>
    intro iv hiv hbs c hc
    have hclen : (E (xorBytes iv b)).length = 16 :=
      hE _ (xorBytes_len16 iv b hiv (hbs b (by simp)))
    rcases List.mem_cons.mp hc with hc | hc
    · rw [hc]; exact hclen
    · exact ih (E (xorBytes iv b)) hclen (fun x hx => hbs x (by simp [hx])) c hc

theorem cbcDec_cbcEnc (E D : List Nat → List Nat)
    (hE : ∀ b, b.length = 16 → (E b).length = 16)
    (hD : ∀ b, b.length = 16 → D (E b) = b) :
    ∀ (bs : List (List Nat)) (iv : List Nat), iv.length = 16 →
    (∀ b ∈ bs, b.length = 16) →
    cbcDecBlocks D iv (cbcEncBlocks E iv bs) = bs := by
  intro bs
  induction bs with
  | nil => intro iv _ _; rfl
  | cons b rest ih =>
    intro iv hiv hbs
    have hblen : b.length = 16 := hbs b (by simp)
    have hxlen : (xorBytes iv b).length = 16 := xorBytes_len16 iv b hiv hblen
    show xorBytes iv (D (E (xorBytes iv b))) ::
        cbcDecBlocks D (E (xorBytes iv b)) (cbcEncBlocks E (E (xorBytes iv b)) rest) =
      b :: rest
    rw [hD _ hxlen, xorBytes_xorBytes iv b (by omega),
      ih (E (xorBytes iv b)) (hE _ hxlen) (fun x hx => hbs x (by simp [hx]))]

theorem flatten_blocks_mod : ∀ bs : List (List Nat),
    (∀ b ∈ bs, b.length = 16) → bs.flatten.length % 16 = 0 := by
  intro bs
  induction bs with
  | nil => intro _; rfl
  | cons b rest ih =>
    intro h
    rw [List.flatten_cons, List.length_append, h b (by simp)]
    have := ih (fun x hx => h x (by simp [hx]))
    omega

theorem pkcs7Pad_mod (l : List Nat) : (pkcs7Pad l).length % 16 = 0 := by
  unfold pkcs7Pad
  rw [List.length_append, List.length_replicate]
  have : l.length % 16 < 16 := Nat.mod_lt _ (by omega)
  omega

theorem pkcs7Unpad_pad (l : List Nat) : pkcs7Unpad (pkcs7Pad l) = some l := by
  have hlt : l.length % 16 < 16 := Nat.mod_lt _ (by omega)
  set n := 16 - l.length % 16 with hn
  have hn1 : 1 ≤ n := by omega
  have hn16 : n ≤ 16 := by omega
  have hrep : List.replicate n n = List.replicate (n - 1) n ++ [n] := by
    have hsucc : List.replicate n n = List.replicate ((n - 1) + 1) n :=
      congrArg (fun k => List.replicate k n) (by omega)
    rw [hsucc, List.replicate_succ' (n - 1) n]
  have hpad : pkcs7Pad l = (l ++ List.replicate (n - 1) n) ++ [n] := by
    unfold pkcs7Pad
    rw [← hn, hrep, List.append_assoc]
  have hlast : (pkcs7Pad l).getLast? = some n := by
    rw [hpad, List.getLast?_concat]
  have hlen : (pkcs7Pad l).length = l.length + n := by
    unfold pkcs7Pad
    rw [List.length_append, List.length_replicate, ← hn]
  have hsub : (pkcs7Pad l).length - n = l.length := by omega
  have hdrop : (pkcs7Pad l).drop ((pkcs7Pad l).length - n) = List.replicate n n := by
    rw [hsub]
    show (l ++ List.replicate n n).drop l.length = List.replicate n n
    exact List.drop_left l (List.replicate n n)
  have htake : (pkcs7Pad l).take ((pkcs7Pad l).length - n) = l := by
    rw [hsub]
    show (l ++ List.replicate n n).take l.length = l
    exact List.take_left l (List.replicate n n)
  have hcond : 1 ≤ n ∧ n ≤ 16 ∧ n ≤ (pkcs7Pad l).length ∧ (pkcs7Pad l).length % 16 = 0 ∧
      ((pkcs7Pad l).drop ((pkcs7Pad l).length - n)).all (· = n) = true := by
    refine ⟨hn1, hn16, by omega, pkcs7Pad_mod l, ?_⟩
    rw [hdrop]
    simp [List.all_eq_true, List.mem_replicate]
  unfold pkcs7Unpad
  rw [hlast]
  show (if 1 ≤ n ∧ n ≤ 16 ∧ n ≤ (pkcs7Pad l).length ∧ (pkcs7Pad l).length % 16 = 0 ∧
      ((pkcs7Pad l).drop ((pkcs7Pad l).length - n)).all (· = n) then
    some ((pkcs7Pad l).take ((pkcs7Pad l).length - n))
  else none) = some l
  rw [if_pos hcond, htake]

theorem iv16_length : iv16.length = 16 := by simp [iv16]

/-- Core inversion lemma: decrypting an honestly CBC-encrypted `v10` blob
with the inverse block cipher reaches the version-dispatch and UTF-8 stage
with exactly the original plaintext. -/
theorem chromeDecrypt_aesCbcEncrypt (E D : List Nat → List Nat)
    (hE : ∀ b, b.length = 16 → (E b).length = 16)
    (hD : ∀ b, b.length = 16 → D (E b) = b)
    (pt : List Nat) (version : Nat) :
    chromeDecrypt D [] (v10b ++ aesCbcEncrypt E pt) version =
      (if utf8Valid (if 24 ≤ version then pt.drop 32 else pt) then
        some (if 24 ≤ version then pt.drop 32 else pt)
      else none) := by
  have hblocks0 : ∀ b ∈ chunk16 (pkcs7Pad pt), b.length = 16 :=
    chunk16_blocks_len _ (pkcs7Pad_mod pt)
  have henc : ∀ c ∈ cbcEncBlocks E iv16 (chunk16 (pkcs7Pad pt)), c.length = 16 :=
    cbcEncBlocks_blocks_len E hE _ iv16 iv16_length hblocks0
  have hmod : (aesCbcEncrypt E pt).length % 16 = 0 :=
    flatten_blocks_mod _ henc
  have htake3 : (v10b ++ aesCbcEncrypt E pt).take 3 = v10b := by
    have : v10b.length = 3 := rfl
    rw [← this, List.take_left]
  have hdrop3 : (v10b ++ aesCbcEncrypt E pt).drop 3 = aesCbcEncrypt E pt := by
    have : v10b.length = 3 := rfl
    rw [← this, List.drop_left]
  unfold chromeDecrypt
  rw [if_neg (by simp [htake3])]
  rw [hdrop3, if_neg (by simp [hmod])]
  have hchunk : chunk16 (aesCbcEncrypt E pt) = cbcEncBlocks E iv16 (chunk16 (pkcs7Pad pt)) :=
    chunk16_flatten_blocks _ henc
  rw [hchunk, cbcDec_cbcEnc E D hE hD _ iv16 iv16_length hblocks0,
    flatten_chunk16, pkcs7Unpad_pad]

/-! ## Lemmas about the Safari parser -/

theorem readBytes_eq_some {buf : List Nat} {pos n : Nat} {b : List Nat}
    (h : readBytes buf pos n = some b) :
    b = (buf.drop pos).take n ∧ pos + n ≤ buf.length := by
  unfold readBytes at h
  split at h
  · exact ⟨(Option.some.inj h).symm, by assumption⟩
  · cases h

theorem readBytes_of_le {buf : List Nat} {pos n : Nat} (h : pos + n ≤ buf.length) :
    readBytes buf pos n = some ((buf.drop pos).take n) := by
  unfold readBytes
  rw [if_pos h]

theorem readBytes_none_of_lt {buf : List Nat} {pos n : Nat} (h : buf.length < pos + n) :
    readBytes buf pos n = none := by
  unfold readBytes
  rw [if_neg (by omega)]

theorem takeUntilZero_ne_nil {l : List Nat} {s : List Nat}
    (h : takeUntilZero l = some s) : l ≠ [] := by
  intro he
  rw [he] at h
  cases h

theorem readCString_eq_some {c : List Nat} {off : Int} {s : List Nat}
    (h : readCString c off = some s) :
    4 ≤ off ∧ off - 4 < (c.length : Int) := by
  unfold readCString at h
  split at h
  · cases h
  · have h4 : 4 ≤ off := by omega
    refine ⟨h4, ?_⟩
    have hne : c.drop (off - 4).toNat ≠ [] := takeUntilZero_ne_nil h
    have hlt : (off - 4).toNat < c.length := by
      by_contra hge
      exact hne (List.drop_eq_nil_of_le (by omega))
    omega

theorem readCString_oob {c : List Nat} {off : Int}
    (h : off < 4 ∨ (c.length : Int) + 4 ≤ off) : readCString c off = none := by
  unfold readCString
  rcases h with h | h
  · rw [if_pos h]
  · rw [if_neg (by omega)]
    have : c.drop (off - 4).toNat = [] := List.drop_eq_nil_of_le (by omega)
    rw [this]
    rfl

/-- A successful entry parse pins down the four field offsets: each is at
least 4 and lands strictly inside the entry window. -/
theorem parseSafariEntry_some_offsets {f64 : List Nat → Int} {c : List Nat}
    {rec : SafariCookie} (h : parseSafariEntry f64 c = some rec) :
    ∀ p ∈ [12, 16, 20, 24],
      4 ≤ sle32 ((c.drop p).take 4) ∧ sle32 ((c.drop p).take 4) - 4 < (c.length : Int) := by
  unfold parseSafariEntry at h
  split at h
  · rename_i flagsB urlB nameB pathB valueB expiryB h1 h2 h3 h4 h5 h6
    split at h
    · rename_i host name path value hu hn hp hv
      obtain ⟨hu2, _⟩ := readBytes_eq_some h2
      obtain ⟨hn2, _⟩ := readBytes_eq_some h3
      obtain ⟨hp2, _⟩ := readBytes_eq_some h4
      obtain ⟨hv2, _⟩ := readBytes_eq_some h5
      intro p hp'
      have hcases : p = 12 ∨ p = 16 ∨ p = 20 ∨ p = 24 := by simpa using hp'
      rcases hcases with rfl | rfl | rfl | rfl
      · exact readCString_eq_some (hu2 ▸ hu)
      · exact readCString_eq_some (hn2 ▸ hn)
      · exact readCString_eq_some (hp2 ▸ hp)
      · exact readCString_eq_some (hv2 ▸ hv)
    · cases h
  · cases h

/-- A successful entry parse reads its `secure` flag from the 4-byte flags
word at entry offset 4, through the `if`/`elif` chain. -/
theorem parseSafariEntry_some_secure {f64 : List Nat → Int} {c : List Nat}
    {rec : SafariCookie} (h : parseSafariEntry f64 c = some rec) :
    rec.secure = safariFlagsSecure (sle32 ((c.drop 4).take 4)) := by
  unfold parseSafariEntry at h
  split at h
  · rename_i flagsB urlB nameB pathB valueB expiryB h1 h2 h3 h4 h5 h6
    split at h
    · rename_i host name path value hu hn hp hv
      obtain ⟨hf2, _⟩ := readBytes_eq_some h1
      subst hf2
      have := Option.some.inj h
      rw [← this]
    · cases h
  · cases h

theorem take_drop_append {α : Type} (l j : List α) (pos n : Nat)
    (h : pos + n ≤ l.length) :
    ((l ++ j).drop pos).take n = (l.drop pos).take n := by
  rw [List.drop_append_eq_append_drop, List.take_append_eq_append_take]
  have h1 : pos - l.length = 0 := by omega
  have h2 : n - (l.drop pos).length = 0 := by
    rw [List.length_drop]
    omega
  rw [h1, h2]
  simp

theorem readBytes_append (l j : List Nat) (pos n : Nat) (h : pos + n ≤ l.length) :
    readBytes (l ++ j) pos n = readBytes l pos n := by
  rw [readBytes_of_le (by rw [List.length_append]; omega), readBytes_of_le h,
    take_drop_append l j pos n h]

theorem pyRead_append (l j : List Nat) (pos : Nat) (s : Int) (hs : 0 ≤ s)
    (h : pos + s.toNat ≤ l.length) :
    pyRead (l ++ j) pos s = pyRead l pos s := by
  unfold pyRead
  rw [if_neg (by omega), if_neg (by omega), take_drop_append l j pos s.toNat h]

/-! ## Lemmas about the Chromium row loop -/

theorem tryKeysRow_first_success {κ : Type} (dec : κ → Option (List Nat))
    (mk : List Nat → ChromeCookieRecord) (emsg : String)
    (ks1 : List κ) (k : κ) (ks2 : List κ) (v : List Nat)
    (hfail : ∀ x ∈ ks1, dec x = none) (hk : dec k = some v) :
    tryKeysRow dec mk emsg (ks1 ++ k :: ks2) = .ok [mk v] := by
  induction ks1 with
  | nil =>
    show tryKeysRow dec mk emsg (k :: ks2) = .ok [mk v]
    unfold tryKeysRow
    rw [hk]
  | cons a as ih =>
    show tryKeysRow dec mk emsg (a :: (as ++ k :: ks2)) = .ok [mk v]
    unfold tryKeysRow
    rw [hfail a (by simp)]
    exact ih (fun x hx => hfail x (by simp [hx]))

theorem tryKeysRow_all_fail {κ : Type} (dec : κ → Option (List Nat))
    (mk : List Nat → ChromeCookieRecord) (emsg : String) :
    ∀ keys : List κ, (∀ x ∈ keys, dec x = none) →
    tryKeysRow dec mk emsg keys = .error emsg := by
  intro keys
  induction keys with
  | nil => intro _; rfl
  | cons a as ih =>
    intro hfail
    show tryKeysRow dec mk emsg (a :: as) = .error emsg
    unfold tryKeysRow
    rw [hfail a (by simp)]
    exact ih (fun x hx => hfail x (by simp [hx]))

theorem tryKeysRow_ok_shape {κ : Type} (dec : κ → Option (List Nat))
    (mk : List Nat → ChromeCookieRecord) (emsg : String) :
    ∀ (keys : List κ) (recs : List ChromeCookieRecord),
    tryKeysRow dec mk emsg keys = .ok recs → ∃ v, recs = [mk v] := by
  intro keys
  induction keys with
  | nil =>
    intro recs h
    cases h
  | cons a as ih =>
    intro recs h
    unfold tryKeysRow at h
    cases hd : dec a with
    | some v =>
      rw [hd] at h
      exact ⟨v, (Except.ok.inj h).symm⟩
    | none =>
      rw [hd] at h
      exact ih recs h

/-! ## Lemmas about the aggregator -/

theorem expiresLe_trans : ∀ a b c : CookieRecord,
    expiresLe a b = true → expiresLe b c = true → expiresLe a c = true := by
  intro a b c hab hbc
  simp [expiresLe] at hab hbc ⊢
  exact le_trans hab hbc

theorem expiresLe_total : ∀ a b : CookieRecord,
    (expiresLe a b || expiresLe b a) = true := by
  intro a b
  simp [expiresLe]
  exact le_total _ _

/-! ## Concrete instances used by witnesses and counterexamples -/

/-- Two candidate keys for the Chromium row loop: key `0` decrypts every
block to zeros (so CBC unpadding fails) while key `1` is the honest inverse
of the identity block cipher. -/
def exDec1 : Nat → List Nat → List Nat :=
  fun k => if k = 0 then (fun _ => List.replicate 16 0) else (fun b => b)

def exRow1 : ChromeRow :=
  { host := "hx", path := "/", secure := false, expiresUtc := 0, name := "sid",
    value := [], encryptedValue := v10b ++ aesCbcEncrypt (fun b => b) [97],
    version := 10 }

def exRow8 : ChromeRow :=
  { host := "h8", path := "/", secure := true, expiresUtc := 13300000000000000,
    name := "n8", value := [98], encryptedValue := [], version := 10 }

/-- A hand-built Safari cookie entry window (44 bytes): flags word 5 at
offset 4, the four field offsets 40/42/44/46 (pointing at buffer positions
36/38/40/42 after the `-4` shift), a zero expiry float, and the
NUL-terminated strings a/b//c. -/
def exEntry : List Nat :=
  [0, 0, 0, 0] ++ [5, 0, 0, 0] ++ [0, 0, 0, 0] ++ [40, 0, 0, 0] ++ [42, 0, 0, 0] ++
    [44, 0, 0, 0] ++ [46, 0, 0, 0] ++ [0, 0, 0, 0, 0, 0, 0, 0] ++
    [97, 0] ++ [98, 0] ++ [47, 0] ++ [99, 0]

def exRecS : SafariCookie :=
  { host := [97], path := [47], secure := true, expires := 978307200,
    name := [98], value := [99] }

/-- `exEntry` with its url-field offset replaced by 100, which points past
the 44-byte entry window. -/
def exBadEntry : List Nat :=
  [0, 0, 0, 0] ++ [5, 0, 0, 0] ++ [0, 0, 0, 0] ++ [100, 0, 0, 0] ++ [42, 0, 0, 0] ++
    [44, 0, 0, 0] ++ [46, 0, 0, 0] ++ [0, 0, 0, 0, 0, 0, 0, 0] ++
    [97, 0] ++ [98, 0] ++ [47, 0] ++ [99, 0]

/-- A one-entry page fragment: the 4-byte entry size 44 followed by
`exEntry`, so the entry at offset 0 occupies the whole 48-byte buffer. -/
def exSizedEntry : List Nat := [44, 0, 0, 0] ++ exEntry

def exSessA : SessionCookie := { host := "a", path := "/", name := "na", value := "va" }

def exSessB : SessionCookie := { host := "b", path := "/", name := "nb", value := "vb" }

def exDocA : SessionDoc := { windows := [{ cookies := [exSessA] }], topCookies := [] }

def exDocB : SessionDoc := { windows := [], topCookies := [exSessB] }

def exRowF : FirefoxRow :=
  { host := "f", path := "/", isSecure := true, expiry := 5, name := "nf", value := "vf" }

/-- Two parsed session-recovery candidates followed by the sqlite store, in
the order `Firefox.find_cookie_files` yields them. -/
def exFF : List FirefoxFile :=
  [.sessionFile (some exDocA), .sessionFile (some exDocB), .sqlite [exRowF]]

def exRec100 : CookieRecord := createCookie "h" "/" false 100 "n1" "v1"

def exRec200 : CookieRecord := createCookie "h" "/" false 200 "n2" "v2"

/-- A loader-results map: Chrome raises `BrowserCookieError` (`NotFound`),
Firefox yields two records with expiries 200 and 100, every other browser
yields nothing. -/
def exAggF : Browser → Except Unit (List CookieRecord) := fun b =>
  match b with
  | .chrome => .error ()
  | .firefox => .ok [exRec200, exRec100]
  | _ => .ok []

/-! ## The claims -/

/-- C1: For every Chromium cookie row, the reader tries the candidate keys in
the order given; the first key whose decryption raises no error determines
the record's value and exactly one record is produced for the row; if every
candidate key fails, the row fails with a `BrowserCookieError` (the spec's
`DecryptionError`) whose message names the cookie name and the host. -/
theorem claim1_first_key_wins :
    (∀ (κ : Type) (D : κ → List Nat → List Nat) (r : ChromeRow)
       (ks1 : List κ) (k : κ) (ks2 : List κ) (v : List Nat),
       (∀ x ∈ ks1, chromeDecrypt (D x) r.value r.encryptedValue r.version = none) →
       chromeDecrypt (D k) r.value r.encryptedValue r.version = some v →
       chromeProcessRow D (ks1 ++ k :: ks2) r = .ok [chromeRowCookie r v]) ∧
    (∀ (κ : Type) (D : κ → List Nat → List Nat) (r : ChromeRow) (keys : List κ),
       (∀ x ∈ keys, chromeDecrypt (D x) r.value r.encryptedValue r.version = none) →
       chromeProcessRow D keys r =
         .error ("Error decrypting cookie " ++ r.name ++ " for " ++ r.host)) := by
  constructor
  · intro κ D r ks1 k ks2 v hfail hk
    unfold chromeProcessRow
    exact tryKeysRow_first_success _ _ _ ks1 k ks2 v hfail hk
  · intro κ D r keys hfail
    unfold chromeProcessRow
    exact tryKeysRow_all_fail _ _ _ keys hfail

/-- Witness for C1: with two candidate keys where the first fails and the
second succeeds, exactly one record is produced from the second key; with
only the failing key, the error message names the cookie and host. -/
theorem claim1_witness :
    chromeProcessRow exDec1 ([0] ++ 1 :: []) exRow1 = .ok [chromeRowCookie exRow1 [97]] ∧
    chromeProcessRow exDec1 [0] exRow1 =
      .error ("Error decrypting cookie " ++ exRow1.name ++ " for " ++ exRow1.host) :=
  ⟨claim1_first_key_wins.1 Nat exDec1 exRow1 [0] 1 [] [97] (by decide) (by decide),
   claim1_first_key_wins.2 Nat exDec1 exRow1 [0] (by decide)⟩

/-- C2 counterexample: the claim quantifies over every plaintext of length
1 to 1000 bytes, but the engine ends with a UTF-8 decode, so the one-byte
plaintext `[255]` (not valid UTF-8) fails to decrypt instead of
round-tripping — here with the identity block cipher, a legitimate
instantiation of the abstracted AES. -/
theorem claim2_counterexample :
    chromeDecrypt (fun b => b) [] (v10b ++ aesCbcEncrypt (fun b => b) [255]) 10 = none ∧
    chromeDecrypt (fun b => b) [] (v10b ++ aesCbcEncrypt (fun b => b) [255]) 10 ≠
      some [255] ∧
    ([255] : List Nat).length = 1 ∧ utf8Valid [255] = false := by
  decide

/-- C2 (amended): for any plaintext of length 1 to 1000 bytes that is valid
UTF-8, encrypting with AES-CBC (any block cipher pair with the inverse
property), the all-space IV, PKCS#7 padding and the `v10` marker, then
decrypting via the cipher engine with an empty plain column and schema
version below 24, yields the original plaintext. -/
theorem claim2_roundtrip_utf8 (E D : List Nat → List Nat)
    (hE : ∀ b, b.length = 16 → (E b).length = 16)
    (hD : ∀ b, b.length = 16 → D (E b) = b)
    (pt : List Nat) (h1 : 1 ≤ pt.length) (h2 : pt.length ≤ 1000)
    (hu : utf8Valid pt = true) (version : Nat) (hv : version < 24) :
    chromeDecrypt D [] (v10b ++ aesCbcEncrypt E pt) version = some pt := by
  rw [chromeDecrypt_aesCbcEncrypt E D hE hD pt version]
  simp [show ¬ 24 ≤ version from by omega, hu]

/-- Witness for C2 (amended): the two-byte UTF-8 plaintext `"ab"`
round-trips through the identity block cipher at schema version 10. -/
theorem claim2_witness :
    chromeDecrypt (fun b => b) [] (v10b ++ aesCbcEncrypt (fun b => b) [97, 98]) 10 =
      some [97, 98] :=
  claim2_roundtrip_utf8 (fun b => b) (fun b => b) (fun _ hb => hb) (fun _ _ => rfl)
    [97, 98] (by decide) (by decide) (by decide) 10 (by decide)

/-- C3: whenever the plain value column is non-empty, or the encrypted column
does not begin with the 3-byte marker `v10` or `v11`, the engine returns the
plain value column unchanged — no decryption, no prefix stripping, and no
version-24 handling. -/
theorem claim3_plaintext_passthrough (D : List Nat → List Nat)
    (value encval : List Nat) (version : Nat)
    (h : value ≠ [] ∨ (encval.take 3 ≠ v10b ∧ encval.take 3 ≠ v11b)) :
    chromeDecrypt D value encval version = some value := by
  unfold chromeDecrypt
  rw [if_pos h]

/-- Witness for C3: a non-empty plain column passes through even at schema
version 30, and an unrecognized marker (`b"v20..."`) passes the (empty)
plain column through. -/
theorem claim3_witness :
    chromeDecrypt (fun b => b) [97] [] 30 = some [97] ∧
    chromeDecrypt (fun b => b) [] [118, 50, 48, 1, 2] 10 = some [] :=
  ⟨claim3_plaintext_passthrough (fun b => b) [97] [] 30 (Or.inl (by decide)),
   claim3_plaintext_passthrough (fun b => b) [] [118, 50, 48, 1, 2] 10
     (Or.inr (by decide))⟩

/-- C4: for schema version at least 24, the first 32 bytes of the decrypted
plaintext are stripped before the UTF-8 decode, so a 32-byte prefixed UTF-8
payload decrypts to exactly the payload; and if the remaining bytes are not
valid UTF-8 the decrypt fails rather than returning a different value. -/
theorem claim4_v24_strip (E D : List Nat → List Nat)
    (hE : ∀ b, b.length = 16 → (E b).length = 16)
    (hD : ∀ b, b.length = 16 → D (E b) = b)
    (pre payload : List Nat) (hpre : pre.length = 32)
    (version : Nat) (hv : 24 ≤ version) :
    (utf8Valid payload = true →
      chromeDecrypt D [] (v10b ++ aesCbcEncrypt E (pre ++ payload)) version =
        some payload) ∧
    (utf8Valid payload = false →
      chromeDecrypt D [] (v10b ++ aesCbcEncrypt E (pre ++ payload)) version = none) := by
  have hdrop : (pre ++ payload).drop 32 = payload := by
    rw [← hpre, List.drop_left]
  rw [chromeDecrypt_aesCbcEncrypt E D hE hD (pre ++ payload) version]
  constructor <;> intro hu <;> simp [hv, hdrop, hu]

/-- Witness for C4: a 32-byte prefix followed by `"hi"` decrypts to exactly
`"hi"` at schema version 24, while a prefix followed by the invalid byte
255 fails. -/
theorem claim4_witness :
    chromeDecrypt (fun b => b) []
      (v10b ++ aesCbcEncrypt (fun b => b) (List.replicate 32 7 ++ [104, 105])) 24 =
      some [104, 105] ∧
    chromeDecrypt (fun b => b) []
      (v10b ++ aesCbcEncrypt (fun b => b) (List.replicate 32 7 ++ [255])) 24 = none :=
  ⟨(claim4_v24_strip (fun b => b) (fun b => b) (fun _ hb => hb) (fun _ _ => rfl)
      (List.replicate 32 7) [104, 105] (by decide) 24 (by decide)).1 (by decide),
   (claim4_v24_strip (fun b => b) (fun b => b) (fun _ hb => hb) (fun _ _ => rfl)
      (List.replicate 32 7) [255] (by decide) 24 (by decide)).2 (by decide)⟩

/-- C5: in the Safari parser, a cookie-entry offset whose 4-byte size field
does not fit inside the page makes the entry parse fail; a string-field
offset pointing before position 4 or past the entry window makes the entry
parse fail; and the parse of an in-bounds entry never depends on bytes
beyond the entry window (so no out-of-bounds bytes are ever read). -/
theorem claim5_safari_bounds :
    (∀ (f64 : List Nat → Int) (page : List Nat) (off : Int),
       0 ≤ off → page.length < off.toNat + 4 → parseCookieAt f64 page off = none) ∧
    (∀ (f64 : List Nat → Int) (c : List Nat) (p : Nat), p ∈ [12, 16, 20, 24] →
       (sle32 ((c.drop p).take 4) < 4 ∨ (c.length : Int) + 4 ≤ sle32 ((c.drop p).take 4)) →
       parseSafariEntry f64 c = none) ∧
    (∀ (f64 : List Nat → Int) (page junk : List Nat) (off : Int),
       0 ≤ off → 0 ≤ sle32 ((page.drop off.toNat).take 4) →
       off.toNat + 4 + (sle32 ((page.drop off.toNat).take 4)).toNat ≤ page.length →
       parseCookieAt f64 (page ++ junk) off = parseCookieAt f64 page off) := by
  refine ⟨?_, ?_, ?_⟩
  · intro f64 page off h0 hlt
    unfold parseCookieAt
    rw [if_neg (not_lt.mpr h0), readBytes_none_of_lt (by omega)]
  · intro f64 c p hp hbad
    cases hres : parseSafariEntry f64 c with
    | none => rfl
    | some rec =>
      exfalso
      have hgood := parseSafariEntry_some_offsets hres p hp
      omega
  · intro f64 page junk off h0 hs hin
    unfold parseCookieAt
    rw [if_neg (not_lt.mpr h0), if_neg (not_lt.mpr h0),
      readBytes_append page junk off.toNat 4 (by omega),
      readBytes_of_le (show off.toNat + 4 ≤ page.length by omega)]
    exact congrArg (parseSafariEntry f64)
      (pyRead_append page junk (off.toNat + 4) (sle32 ((page.drop off.toNat).take 4))
        hs (by omega))

/-- Witness for C5: an empty page rejects the entry at offset 0; the entry
whose url offset is 100 (past its 44-byte window) is rejected; and a
well-formed 48-byte sized entry parses identically with junk appended. -/
theorem claim5_witness :
    parseCookieAt (fun _ => 0) [] 0 = none ∧
    parseSafariEntry (fun _ => 0) exBadEntry = none ∧
    parseCookieAt (fun _ => 0) (exSizedEntry ++ [9, 9, 9]) 0 =
      parseCookieAt (fun _ => 0) exSizedEntry 0 :=
  ⟨claim5_safari_bounds.1 (fun _ => 0) [] 0 (by decide) (by decide),
   claim5_safari_bounds.2.1 (fun _ => 0) exBadEntry 12 (by decide) (by decide),
   claim5_safari_bounds.2.2 (fun _ => 0) exSizedEntry [9, 9, 9] 0 (by decide)
     (by decide) (by decide)⟩

/-- C6: the decoded record's `secure` field is the flags word mapped through
the chain `{0 ↦ false, 1 ↦ true, 4 ↦ false, 5 ↦ true, other ↦ false}`
(HTTP-only, flag 4, is not surfaced as a distinct attribute). -/
theorem claim6_safari_flags :
    (∀ (f64 : List Nat → Int) (c : List Nat) (rec : SafariCookie),
       parseSafariEntry f64 c = some rec →
       rec.secure = safariFlagsSecure (sle32 ((c.drop 4).take 4))) ∧
    safariFlagsSecure 0 = false ∧ safariFlagsSecure 1 = true ∧
    safariFlagsSecure 4 = false ∧ safariFlagsSecure 5 = true ∧
    (∀ fl : Int, fl ≠ 0 → fl ≠ 1 → fl ≠ 4 → fl ≠ 5 → safariFlagsSecure fl = false) := by
  refine ⟨fun f64 c rec h => parseSafariEntry_some_secure h, rfl, rfl, rfl, rfl, ?_⟩
  intro fl h0 h1 h4 h5
  unfold safariFlagsSecure
  rw [if_neg h1, if_neg h4, if_neg h5]

/-- Witness for C6: the hand-built entry with flags word 5 parses to a record
with `secure = true`, and an unknown flags value collapses to `false`. -/
theorem claim6_witness :
    exRecS.secure = safariFlagsSecure (sle32 ((exEntry.drop 4).take 4)) ∧
    safariFlagsSecure 7 = false :=
  ⟨claim6_safari_flags.1 (fun _ => 0) exEntry exRecS (by decide),
   claim6_safari_flags.2.2.2.2.2 7 (by decide) (by decide) (by decide) (by decide)⟩

/-- C7 counterexample: the claim says the aggregation runs every known Store
Loader, but the class list of `_get_cookies` omits the Safari loader. -/
theorem claim7_counterexample : Browser.safari ∉ aggregatorKlasses := by
  decide

/-- C7 (amended): the aggregation runs every known Store Loader except
Safari; a loader failing with `BrowserCookieError` (`NotFound`,
`KeyUnavailable`) is silently skipped and never aborts the others; the
merged output is sorted ascending by `expires` (a sorted permutation of the
gathered records) before jar insertion; and on the claim's example — one
loader raising `NotFound`, one yielding records with expiries 200 and 100 —
the output is `[rec(100), rec(200)]`. -/
theorem claim7_aggregator :
    (∀ b : Browser, b ∈ aggregatorKlasses ↔ b ≠ Browser.safari) ∧
    (∀ (ε : Type) (f : Browser → Except ε (List CookieRecord)) (b : Browser)
       (e : ε) (bs : List Browser), f b = .error e →
       aggGather f (b :: bs) = aggGather f bs) ∧
    (∀ (ε : Type) (f : Browser → Except ε (List CookieRecord)),
       (aggLoad f).Pairwise (fun a b => expiresLe a b = true) ∧
       (aggLoad f).Perm (aggGather f aggregatorKlasses)) ∧
    aggLoad exAggF = [exRec100, exRec200] := by
  refine ⟨fun b => by cases b <;> decide, ?_, ?_, ?_⟩
  · intro ε f b e bs h
    simp [aggGather, h]
  · intro ε f
    exact ⟨List.sorted_mergeSort expiresLe_trans expiresLe_total _,
      List.mergeSort_perm _ _⟩
  · simp [aggLoad, aggGather, aggregatorKlasses, exAggF, List.mergeSort, List.merge,
      expiresLe]
    decide

/-- Witness for C7: the skip rule applied to the failing Chrome loader, and
the membership rule applied to the Brave loader. -/
theorem claim7_witness :
    aggGather exAggF (Browser.chrome :: [Browser.firefox]) =
      aggGather exAggF [Browser.firefox] ∧
    (Browser.brave ∈ aggregatorKlasses ↔ Browser.brave ≠ Browser.safari) :=
  ⟨claim7_aggregator.2.1 Unit exAggF Browser.chrome () [Browser.firefox] rfl,
   claim7_aggregator.1 Browser.brave⟩

/-- C8 counterexample: the row conversion uses Python true division, so for
`expires_utc = 500000` the resulting expiry is `-23288947199/2`, not an
integer number of seconds as the claim asserts. -/
theorem claim8_counterexample : ¬ ∃ z : ℤ, chromeExpires 500000 = (z : ℚ) := by
  rintro ⟨z, hz⟩
  have h2 : (2 : ℚ) * (z : ℚ) = -23288947199 := by
    rw [← hz]
    unfold chromeExpires
    push_cast
    norm_num
  have h3 : (2 * z : ℤ) = -23288947199 := by exact_mod_cast h2
  omega

/-- C8 (amended): every record emitted for a Chromium row carries
`expires = expires_utc / 1000000 - 11644473600` computed with exact (true)
division; the result is an integer number of seconds whenever `expires_utc`
is a multiple of 1,000,000, but is fractional otherwise. -/
theorem claim8_expires_formula :
    (∀ (κ : Type) (D : κ → List Nat → List Nat) (keys : List κ) (r : ChromeRow)
       (recs : List ChromeCookieRecord), chromeProcessRow D keys r = .ok recs →
       ∀ rec ∈ recs, rec.expires = (r.expiresUtc : ℚ) / 1000000 - 11644473600) ∧
    (∀ u : ℕ, 1000000 ∣ u → ∃ z : ℤ, chromeExpires u = (z : ℚ)) := by
  constructor
  · intro κ D keys r recs h rec hrec
    unfold chromeProcessRow at h
    obtain ⟨v, rfl⟩ := tryKeysRow_ok_shape _ _ _ keys recs h
    have hrec2 : rec = chromeRowCookie r v := by simpa using hrec
    rw [hrec2]
    rfl
  · rintro u ⟨k, rfl⟩
    refine ⟨(k : ℤ) - 11644473600, ?_⟩
    unfold chromeExpires
    push_cast
    field_simp

/-- Witness for C8: the record produced from a row with
`expires_utc = 13300000000000000` carries the exact converted expiry, and
`expires_utc = 2000000` converts to an integer. -/
theorem claim8_witness :
    (chromeRowCookie exRow8 [98]).expires =
      ((13300000000000000 : ℕ) : ℚ) / 1000000 - 11644473600 ∧
    ∃ z : ℤ, chromeExpires 2000000 = (z : ℚ) :=
  ⟨claim8_expires_formula.1 Nat (fun _ => fun b => b) [5] exRow8
      [chromeRowCookie exRow8 [98]] rfl (chromeRowCookie exRow8 [98])
      (List.mem_singleton.mpr rfl),
   claim8_expires_formula.2 2000000 (by decide)⟩

/-- C9 counterexample: with two session-recovery candidates and one sqlite
store ordered as `find_cookie_files` yields them, the session records are
emitted before the relational rows (the first emitted record is a session
cookie, not the sqlite row) and the second candidate is parsed too — the
claim asserted session records come after the relational pass and that only
the first candidate is parsed. -/
theorem claim9_counterexample :
    firefoxGetCookies 7 exFF =
      [firefoxSessionCookie 7 exSessA, firefoxSessionCookie 7 exSessB,
        firefoxRowCookie exRowF] ∧
    (firefoxGetCookies 7 exFF).head? ≠ some (firefoxRowCookie exRowF) ∧
    firefoxSessionCookie 7 exSessB ∈ firefoxGetCookies 7 exFF := by
  decide

/-- C9 (amended): the Firefox reader performs its session-recovery
augmentation before the relational pass — session records are emitted before
the cookie-table rows — and every successfully-read session candidate (not
only the first) is parsed; every session cookie, from `windows[].cookies[]`
plus the top-level object, is emitted with `secure = false` and the
synthetic expiry `now + 7 days`. -/
theorem claim9_firefox_sessions (now : Int) (ss : List FirefoxFile)
    (rows : List FirefoxRow) :
    firefoxGetCookies now (firefoxOrderFiles ss (.sqlite rows)) =
      (ss.map (firefoxFileCookies now)).flatten ++ rows.map firefoxRowCookie ∧
    (∀ f ∈ ss, ∀ d, sessionDocOf f = some d → ∀ c ∈ sessionDocCookies d,
       firefoxSessionCookie now c ∈
         firefoxGetCookies now (firefoxOrderFiles ss (.sqlite rows))) ∧
    (∀ c : SessionCookie, (firefoxSessionCookie now c).secure = false ∧
       (firefoxSessionCookie now c).expires = ((now + 3600 * 24 * 7 : Int) : ℚ)) := by
  refine ⟨?_, ?_, fun c => ⟨rfl, rfl⟩⟩
  · unfold firefoxGetCookies firefoxOrderFiles
    rw [List.map_append, List.flatten_append]
    simp [firefoxFileCookies]
  · intro f hf d hd c hc
    have hfeq : f = .sessionFile (some d) := by
      cases f with
      | sqlite rows2 => cases hd
      | sessionFile od =>
        cases od with
        | none => cases hd
        | some d2 =>
          have : d2 = d := Option.some.inj hd
          rw [this]
    have hmem : firefoxSessionCookie now c ∈ firefoxFileCookies now f := by
      rw [hfeq]
      exact List.mem_map_of_mem (firefoxSessionCookie now) hc
    unfold firefoxGetCookies firefoxOrderFiles
    exact List.mem_flatten.mpr
      ⟨firefoxFileCookies now f,
        List.mem_map_of_mem (firefoxFileCookies now) (List.mem_append_left _ hf), hmem⟩

/-- Witness for C9 (amended): one parsed session candidate ahead of a
one-row sqlite store — the session part precedes the relational part, the
session cookie is in the output, and it is insecure. -/
theorem claim9_witness :
    firefoxGetCookies 7 (firefoxOrderFiles [.sessionFile (some exDocA)] (.sqlite [exRowF])) =
      ([FirefoxFile.sessionFile (some exDocA)].map (firefoxFileCookies 7)).flatten ++
        [exRowF].map firefoxRowCookie ∧
    firefoxSessionCookie 7 exSessA ∈
      firefoxGetCookies 7 (firefoxOrderFiles [.sessionFile (some exDocA)] (.sqlite [exRowF])) ∧
    (firefoxSessionCookie 7 exSessA).secure = false :=
  ⟨(claim9_firefox_sessions 7 [.sessionFile (some exDocA)] [exRowF]).1,
   (claim9_firefox_sessions 7 [.sessionFile (some exDocA)] [exRowF]).2.1
     (.sessionFile (some exDocA)) (List.mem_singleton.mpr rfl) exDocA rfl exSessA
     (by decide),
   ((claim9_firefox_sessions 7 [.sessionFile (some exDocA)] [exRowF]).2.2 exSessA).1⟩

/-- C10: Safari's cookie extraction is independent of the `cookie_files`
list supplied to the loader's constructor — it depends only on the contents
of the fixed path `~/Library/Cookies/Cookies.binarycookies`, so any two
`cookie_files` arguments (and any two file systems agreeing at that path)
yield the identical record sequence. -/
theorem claim10_safari_ignores_files (f64 : List Nat → Int)
    (fs fs2 : String → Option (List Nat)) (cf1 cf2 : List String)
    (h : fs safariCookiesPath = fs2 safariCookiesPath) :
    safariGetCookies f64 fs cf1 = safariGetCookies f64 fs2 cf2 := by
  unfold safariGetCookies
  rw [h]

/-- Witness for C10: an empty and a non-empty `cookie_files` list give the
same result on the same (empty) file system. -/
theorem claim10_witness :
    safariGetCookies (fun _ => 0) (fun _ => none) [] =
      safariGetCookies (fun _ => 0) (fun _ => none) ["x"] :=
  claim10_safari_ignores_files (fun _ => 0) (fun _ => none) (fun _ => none) [] ["x"] rfl

end Browsercookie
